import Mathlib

/-!
Verification of the territory adjacency graph of diplo_crafter
(src/src/graph.rs).

The Rust code stores nodes as reference-counted cells
(Rc<RefCell<Node>>); the graph holds a strong reference per member and
adjacency lists hold weak references.  We embed this with an explicit
heap: `State.store` is the contents of every cell ever allocated,
indexed by allocation order; `State.nodes` is the graph's list of
strong references (Graph::nodes); `State.handles` is the set of cells
the external caller still holds a strong reference to.  A weak
reference is just a cell index; `Weak::upgrade` succeeds exactly when
the index is still strongly held by the graph or by the caller
(`alive`).  Pointer equality of references (`Rc::ptr_eq`) is equality
of cell indices, since every allocation gets a fresh index.
-/

inductive SupplyType where
  | Core (owner : String)
  | Neutral
deriving DecidableEq

inductive LandType where
  | Normal
  | SupplyCenter (s : SupplyType)
deriving DecidableEq

inductive TerritoryType where
  | Sea
  | Land (l : LandType)
deriving DecidableEq

/-- The node record of graph.rs: a name, a territory classification and
the list of (weak) adjacency references. -/
structure Node where
  name : String
  attributes : TerritoryType
  neighbors : List Nat
deriving DecidableEq

/-- Node::new: empty adjacency list. -/
def Node.new (name : String) (attributes : TerritoryType) : Node :=
  { name := name, attributes := attributes, neighbors := [] }

/-- Default cell content, used for out-of-range reads (never reached on
live indices). -/
def dNode : Node := Node.new "" TerritoryType.Sea

/-- The whole mutable state: the heap of cells, the graph's strong
references and the caller's strong references. -/
structure State where
  store : List Node
  nodes : List Nat
  handles : List Nat
deriving DecidableEq

/-- Graph::new together with an empty heap and no caller handles. -/
def State.init : State := { store := [], nodes := [], handles := [] }

/-- Weak::upgrade succeeds: some strong reference to cell w survives,
either the graph's or one of the caller's. -/
def alive (s : State) (w : Nat) : Bool :=
  s.nodes.contains w || s.handles.contains w

/-- Contents of cell i. -/
def getNode (s : State) (i : Nat) : Node := s.store.getD i dNode

/-- Raw adjacency list of cell i (weak references, possibly stale). -/
def nbrs (s : State) (i : Nat) : List Nat := (getNode s i).neighbors

/-- Neighbor enumeration as the API exposes it: stale references are
filtered out by the upgrade check. -/
def neighborsLive (s : State) (i : Nat) : List Nat :=
  (nbrs s i).filter (fun w => alive s w)

/-- Rewrite the adjacency list of cell i in a heap. -/
def updateNbrs (st : List Node) (i : Nat) (f : List Nat → List Nat) : List Node :=
  st.set i (let nd := st.getD i dNode;
            { nd with neighbors := f nd.neighbors })

/-- Graph::add_node: allocate a fresh cell, push a strong reference into
the graph's list, and hand a strong reference (the returned NodeRef) to
the caller. -/
def add_node (s : State) (n : Node) : State × Nat :=
  let id := s.store.length
  ({ store := s.store ++ [n],
     nodes := s.nodes ++ [id],
     handles := s.handles ++ [id] }, id)

/-- Graph::remove_node: retain every graph entry not pointer-equal to
the argument, then walk the remaining members and retain in each
adjacency list only the entries that still upgrade and are not
pointer-equal to the removed node.  Liveness during the walk is judged
after the graph dropped its own reference. -/
def remove_node (s : State) (h : Nat) : State :=
  let nodes' := s.nodes.filter (fun x => x != h)
  let keep : Nat → Bool := fun w =>
    (nodes'.contains w || s.handles.contains w) && w != h
  { store := nodes'.foldl
      (fun st i => updateNbrs st i (fun l => l.filter keep)) s.store,
    nodes := nodes',
    handles := s.handles }

/-- One half of Graph::add_edge: node i records a weak reference to j. -/
def pushNbr (st : List Node) (i j : Nat) : List Node :=
  updateNbrs st i (fun l => l ++ [j])

/-- Graph::add_edge: push a weak reference to node2 onto node1's list,
then symmetrically. -/
def add_edge (s : State) (n1 n2 : Nat) : State :=
  { s with store := pushNbr (pushNbr s.store n1 n2) n2 n1 }

/-- Graph::remove_edge: in node1's list retain the entries that upgrade
and are not node2, then the symmetric retain on node2's list. -/
def remove_edge (s : State) (n1 n2 : Nat) : State :=
  let al : Nat → Bool := fun w => alive s w
  { s with store :=
      (updateNbrs
        (updateNbrs s.store n1 (fun l => l.filter (fun w => al w && w != n2)))
        n2 (fun l => l.filter (fun w => al w && w != n1))) }

/-- The caller lets go of a strong reference it held. -/
def drop_handle (s : State) (h : Nat) : State :=
  { s with handles := s.handles.filter (fun x => x != h) }

/-- The caller clones a strong reference out of the graph's node list
(as the unit test does with Rc::clone). -/
def fetch_handle (s : State) (h : Nat) : State :=
  { s with handles := s.handles ++ [h] }

/-- The API events a client program can perform. -/
inductive Op where
  | addNode (name : String) (attrs : TerritoryType)
  | removeNode (h : Nat)
  | addEdge (a b : Nat)
  | removeEdge (a b : Nat)
  | dropHandle (h : Nat)
  | fetchHandle (h : Nat)
deriving DecidableEq

/-- An event can be performed: Rust's borrow rules mean every NodeRef
argument is a live strong reference; remove_node takes &mut self, so
its argument reference cannot be borrowed out of the graph's own list
and must be caller-held, while add_edge and remove_edge take &self and
accept any live reference. -/
def valid (s : State) : Op → Bool
  | Op.addNode _ _ => true
  | Op.removeNode h => s.handles.contains h
  | Op.addEdge a b => alive s a && alive s b
  | Op.removeEdge a b => alive s a && alive s b
  | Op.dropHandle _ => true
  | Op.fetchHandle h => s.nodes.contains h

/-- Effect of one event. -/
def step (s : State) : Op → State
  | Op.addNode nm att => (add_node s (Node.new nm att)).1
  | Op.removeNode h => remove_node s h
  | Op.addEdge a b => add_edge s a b
  | Op.removeEdge a b => remove_edge s a b
  | Op.dropHandle h => drop_handle s h
  | Op.fetchHandle h => fetch_handle s h

/-- Run a sequence of events from a state; none if some event is not
performable. -/
def run : State → List Op → Option State
  | s, [] => some s
  | s, op :: ops => if valid s op then run (step s op) ops else none

/-- A state the program can actually be in. -/
def Reachable (s : State) : Prop := ∃ ops, run State.init ops = some s

/-- Like valid, but edge operations additionally respect the documented
precondition that both handles refer to current members of the graph. -/
def validStrict (s : State) : Op → Bool
  | Op.addEdge a b => s.nodes.contains a && s.nodes.contains b
  | Op.removeEdge a b => s.nodes.contains a && s.nodes.contains b
  | op => valid s op

/-- Run under the documented edge precondition. -/
def runStrict : State → List Op → Option State
  | s, [] => some s
  | s, op :: ops => if validStrict s op && valid s op then runStrict (step s op) ops else none

/-- A state reachable while respecting the documented edge
precondition. -/
def ReachableStrict (s : State) : Prop := ∃ ops, runStrict State.init ops = some s

/-- Turkish core supply center classification, as in the sample maps. -/
def coreTurkey : TerritoryType :=
  TerritoryType.Land (LandType.SupplyCenter (SupplyType.Core "Turkey"))

/-- gen_test_turkey of graph.rs: the three-node triangle.  The local
NodeRefs are dropped when the function returns, so the result keeps no
caller handles. -/
def gen_test_turkey : State :=
  let s0 := State.init
  let p1 := add_node s0 (Node.new "Constantinople" coreTurkey)
  let con := p1.2
  let p2 := add_node p1.1 (Node.new "Smyrna" coreTurkey)
  let smy := p2.2
  let p3 := add_node p2.1 (Node.new "Ankara" coreTurkey)
  let ank := p3.2
  let s4 := add_edge p3.1 con ank
  let s5 := add_edge s4 con smy
  let s6 := add_edge s5 ank smy
  { s6 with handles := [] }

/-- gen_test_turkey_region of graph.rs: the eight-node regional map. -/
def gen_test_turkey_region : State :=
  let s0 := State.init
  let p1 := add_node s0 (Node.new "Constantinople" coreTurkey)
  let con := p1.2
  let p2 := add_node p1.1 (Node.new "Smyrna" coreTurkey)
  let smy := p2.2
  let p3 := add_node p2.1 (Node.new "Ankara" coreTurkey)
  let ank := p3.2
  let p4 := add_node p3.1 (Node.new "Sevastopol"
    (TerritoryType.Land (LandType.SupplyCenter (SupplyType.Core "Russia"))))
  let sev := p4.2
  let p5 := add_node p4.1 (Node.new "Black Sea" TerritoryType.Sea)
  let bla := p5.2
  let p6 := add_node p5.1 (Node.new "Eastern Mediterranean" TerritoryType.Sea)
  let eas := p6.2
  let p7 := add_node p6.1 (Node.new "Armenia" (TerritoryType.Land LandType.Normal))
  let arm := p7.2
  let p8 := add_node p7.1 (Node.new "Syria" (TerritoryType.Land LandType.Normal))
  let syr := p8.2
  let sA := add_edge p8.1 con ank
  let sB := add_edge sA con smy
  let sC := add_edge sB con bla
  let sD := add_edge sC ank bla
  let sE := add_edge sD ank smy
  let sF := add_edge sE ank arm
  let sG := add_edge sF smy eas
  let sH := add_edge sG smy arm
  let sI := add_edge sH smy syr
  let sJ := add_edge sI sev bla
  let sK := add_edge sJ sev arm
  let sL := add_edge sK eas syr
  let sM := add_edge sL bla arm
  let sN := add_edge sM arm syr
  { sN with handles := [] }

/-- Undirected edge count: every edge contributes one adjacency entry to
each endpoint, so it is half the total entry count over the members. -/
def edgeCount (s : State) : Nat :=
  ((s.nodes.map (fun i => (nbrs s i).length)).sum) / 2

/-- The retain predicate applied to every remaining member's adjacency
list by remove_node. -/
def keepFn (s : State) (h : Nat) : Nat → Bool := fun w =>
  ((s.nodes.filter (fun x => x != h)).contains w || s.handles.contains w) && w != h

/-- Well-formedness: every index stored anywhere points into the heap,
and the graph's strong references are pairwise distinct (add_node only
ever pushes a fresh cell). -/
def Wf (s : State) : Prop :=
  (∀ i ∈ s.nodes, i < s.store.length) ∧
  (∀ i ∈ s.handles, i < s.store.length) ∧
  (∀ j, ∀ w ∈ nbrs s j, w < s.store.length) ∧
  s.nodes.Nodup

/-- Edge symmetry on the members of the graph. -/
def EdgeSym (s : State) : Prop :=
  ∀ a ∈ s.nodes, ∀ b ∈ s.nodes, (b ∈ nbrs s a ↔ a ∈ nbrs s b)

/-- Referential consistency: every adjacency entry of a member of the
graph refers to a member of the graph. -/
def MemInv (s : State) : Prop := ∀ a ∈ s.nodes, ∀ w ∈ nbrs s a, w ∈ s.nodes

/-- Event sequence: create two nodes, remove the second while the
caller keeps its handle, then add an edge from the remaining member to
the removed node. -/
def c1ops : List Op :=
  [Op.addNode "a" TerritoryType.Sea, Op.addNode "x" TerritoryType.Sea,
   Op.removeNode 1, Op.addEdge 0 1]

/-- The state c1ops ends in. -/
def c1state : State :=
  { store := [{ name := "a", attributes := TerritoryType.Sea, neighbors := [1] },
              { name := "x", attributes := TerritoryType.Sea, neighbors := [0] }],
    nodes := [0], handles := [0, 1] }

/-- Event sequence reaching the triangle map, with all local handles
dropped at the end. -/
def turkeyOps : List Op :=
  [Op.addNode "Constantinople" coreTurkey, Op.addNode "Smyrna" coreTurkey,
   Op.addNode "Ankara" coreTurkey, Op.addEdge 0 2, Op.addEdge 0 1,
   Op.addEdge 2 1, Op.dropHandle 0, Op.dropHandle 1, Op.dropHandle 2]

/-- The triangle map after the caller re-fetches Ankara's reference and
removes it. -/
def turkeyMinusAnkara : State :=
  remove_node (fetch_handle gen_test_turkey 2) 2

/-- The state c9ops ends in: node 1 removed but still strongly held. -/
def c9state : State :=
  { store := [{ name := "a", attributes := TerritoryType.Sea, neighbors := [] },
              { name := "x", attributes := TerritoryType.Sea, neighbors := [] }],
    nodes := [0], handles := [0, 1] }

/-- The state c3ops ends in. -/
def c3state : State :=
  { store := [{ name := "a", attributes := TerritoryType.Sea, neighbors := [1] },
              { name := "c", attributes := TerritoryType.Sea, neighbors := [0] }],
    nodes := [0], handles := [0, 1] }

/-- The state c4ops ends in. -/
def c4state : State :=
  { store := [{ name := "a", attributes := TerritoryType.Sea, neighbors := [1] },
              { name := "b", attributes := TerritoryType.Sea, neighbors := [0] }],
    nodes := [0, 1], handles := [] }

/-- Event sequence: two member nodes with no edges, handles dropped. -/
def c4wOps : List Op :=
  [Op.addNode "a" TerritoryType.Sea, Op.addNode "b" TerritoryType.Sea,
   Op.dropHandle 0, Op.dropHandle 1]

/-- The state c4wOps ends in. -/
def c4wState : State :=
  { store := [{ name := "a", attributes := TerritoryType.Sea, neighbors := [] },
              { name := "b", attributes := TerritoryType.Sea, neighbors := [] }],
    nodes := [0, 1], handles := [] }

/-- Event sequence: members 0 and 1, plus a third node removed while
held, an edge added from 0 to it, and its handle dropped — leaving a
stale entry in member 0's list. -/
def c6ops : List Op :=
  [Op.addNode "a" TerritoryType.Sea, Op.addNode "b" TerritoryType.Sea,
   Op.addNode "x" TerritoryType.Sea, Op.removeNode 2, Op.addEdge 0 2,
   Op.dropHandle 2]

/-- The state c6ops ends in. -/
def c6state : State :=
  { store := [{ name := "a", attributes := TerritoryType.Sea, neighbors := [2] },
              { name := "b", attributes := TerritoryType.Sea, neighbors := [] },
              { name := "x", attributes := TerritoryType.Sea, neighbors := [0] }],
    nodes := [0, 1], handles := [0, 1] }

def createOps (l : List (String × TerritoryType)) : List Op :=
  l.map (fun p => Op.addNode p.1 p.2)

/-- One remove_node call per handle. -/
def removeOps (hs : List Nat) : List Op := hs.map Op.removeNode

/-- Event sequence: create two nodes, then remove the second while the
caller keeps its handle. -/
def c9ops : List Op :=
  [Op.addNode "a" TerritoryType.Sea, Op.addNode "x" TerritoryType.Sea,
   Op.removeNode 1]

/-- Event sequence: create two nodes, remove the second (handle kept),
then add an edge from the remaining member to the removed node. -/
def c3ops : List Op :=
  [Op.addNode "a" TerritoryType.Sea, Op.addNode "c" TerritoryType.Sea,
   Op.removeNode 1, Op.addEdge 0 1]

/-- Event sequence: two member nodes already connected by one edge,
local handles dropped. -/
def c4ops : List Op :=
  [Op.addNode "a" TerritoryType.Sea, Op.addNode "b" TerritoryType.Sea,
   Op.addEdge 0 1, Op.dropHandle 0, Op.dropHandle 1]

lemma alive_iff (s : State) (w : Nat) :
    alive s w = true ↔ w ∈ s.nodes ∨ w ∈ s.handles := by
  simp [alive]

lemma filter_idem {α : Type} (p : α → Bool) (l : List α) :
    (l.filter p).filter p = l.filter p := by
  rw [List.filter_filter]
  apply List.filter_congr
  intro x _
  cases p x <;> simp

lemma length_updateNbrs (st : List Node) (i : Nat) (f : List Nat → List Nat) :
    (updateNbrs st i f).length = st.length := by
  simp [updateNbrs]

lemma getD_updateNbrs (st : List Node) (i j : Nat) (f : List Nat → List Nat) :
    (updateNbrs st i f).getD j dNode =
      if j = i ∧ j < st.length then
        { st.getD j dNode with neighbors := f (st.getD j dNode).neighbors }
      else st.getD j dNode := by
  simp only [updateNbrs, List.getD_eq_getElem?_getD, List.getElem?_set]
  by_cases hji : i = j
  · subst hji
    by_cases hlt : i < st.length
    · simp [hlt, List.getD_eq_getElem?_getD]
    · have : st[i]? = none := by
        simp [List.getElem?_eq_none_iff]
        omega
      simp [hlt, this]
  · simp [hji, Ne.symm hji]

lemma length_foldl_update (f : List Nat → List Nat) (l : List Nat) (st : List Node) :
    (l.foldl (fun st i => updateNbrs st i f) st).length = st.length := by
  induction l generalizing st with
  | nil => rfl
  | cons i rest ih => simp [List.foldl_cons, ih, length_updateNbrs]

lemma getD_foldl_update (f : List Nat → List Nat) (hf : ∀ x, f (f x) = f x)
    (l : List Nat) (st : List Node) (j : Nat) :
    (l.foldl (fun st i => updateNbrs st i f) st).getD j dNode =
      if j ∈ l ∧ j < st.length then
        { st.getD j dNode with neighbors := f (st.getD j dNode).neighbors }
      else st.getD j dNode := by
  induction l generalizing st with
  | nil => simp
  | cons i rest ih =>
    rw [List.foldl_cons, ih, length_updateNbrs, getD_updateNbrs]
    by_cases hji : j = i
    · subst hji
      by_cases hlt : j < st.length
      · by_cases hjr : j ∈ rest <;> simp [hlt, hjr, hf]
      · simp [hlt]
    · by_cases hjr : j ∈ rest <;> simp [hji, hjr]

lemma store_ext (st1 st2 : List Node) (hl : st1.length = st2.length)
    (hg : ∀ j, st1.getD j dNode = st2.getD j dNode) : st1 = st2 := by
  apply List.ext_getElem hl
  intro n h1 h2
  have h := hg n
  rwa [List.getD_eq_getElem _ _ h1, List.getD_eq_getElem _ _ h2] at h

lemma stateExt (s t : State) (h1 : s.store = t.store) (h2 : s.nodes = t.nodes)
    (h3 : s.handles = t.handles) : s = t := by
  cases s; cases t; simp_all

lemma remove_node_nodes (s : State) (h : Nat) :
    (remove_node s h).nodes = s.nodes.filter (fun x => x != h) := rfl

lemma remove_node_handles (s : State) (h : Nat) :
    (remove_node s h).handles = s.handles := rfl

lemma remove_node_store (s : State) (h : Nat) :
    (remove_node s h).store =
      (s.nodes.filter (fun x => x != h)).foldl
        (fun st i => updateNbrs st i (fun l => l.filter (keepFn s h))) s.store := rfl

lemma remove_node_store_length (s : State) (h : Nat) :
    (remove_node s h).store.length = s.store.length := by
  rw [remove_node_store]
  exact length_foldl_update _ _ _

lemma getNode_remove_node (s : State) (h j : Nat) :
    getNode (remove_node s h) j =
      if j ∈ s.nodes.filter (fun x => x != h) ∧ j < s.store.length then
        { getNode s j with neighbors := (getNode s j).neighbors.filter (keepFn s h) }
      else getNode s j := by
  show (remove_node s h).store.getD j dNode = _
  rw [remove_node_store]
  exact getD_foldl_update _ (fun x => filter_idem _ x) _ _ _

lemma nbrs_remove_node (s : State) (h j : Nat) :
    nbrs (remove_node s h) j =
      if j ∈ s.nodes.filter (fun x => x != h) ∧ j < s.store.length then
        (nbrs s j).filter (keepFn s h)
      else nbrs s j := by
  unfold nbrs
  rw [getNode_remove_node]
  by_cases hc : j ∈ s.nodes.filter (fun x => x != h) ∧ j < s.store.length
  · rw [if_pos hc, if_pos hc]
  · rw [if_neg hc, if_neg hc]

lemma add_edge_nodes (s : State) (x y : Nat) : (add_edge s x y).nodes = s.nodes := rfl

lemma add_edge_handles (s : State) (x y : Nat) : (add_edge s x y).handles = s.handles := rfl

lemma add_edge_store_length (s : State) (x y : Nat) :
    (add_edge s x y).store.length = s.store.length := by
  simp [add_edge, pushNbr, length_updateNbrs]

lemma getNode_pushNbr (st : List Node) (i k j : Nat) :
    (pushNbr st i k).getD j dNode =
      if j = i ∧ j < st.length then
        { st.getD j dNode with neighbors := (st.getD j dNode).neighbors ++ [k] }
      else st.getD j dNode :=
  getD_updateNbrs st i j _

lemma length_pushNbr (st : List Node) (i k : Nat) :
    (pushNbr st i k).length = st.length :=
  length_updateNbrs st i _

lemma nbrs_add_edge (s : State) (x y j : Nat) :
    nbrs (add_edge s x y) j =
      if j = y ∧ j < s.store.length then
        (if j = x then nbrs s j ++ [y] else nbrs s j) ++ [x]
      else if j = x ∧ j < s.store.length then nbrs s j ++ [y]
      else nbrs s j := by
  show ((pushNbr (pushNbr s.store x y) y x).getD j dNode).neighbors = _
  rw [getNode_pushNbr, length_pushNbr, getNode_pushNbr]
  by_cases hy : j = y ∧ j < s.store.length
  · rw [if_pos hy, if_pos hy]
    by_cases hjx : j = x
    · rw [if_pos ⟨hjx, hy.2⟩, if_pos hjx]
      simp [nbrs, getNode]
    · rw [if_neg (fun hc => hjx hc.1), if_neg hjx]
      simp [nbrs, getNode]
  · rw [if_neg hy, if_neg hy]
    by_cases hx : j = x ∧ j < s.store.length
    · rw [if_pos hx, if_pos hx]
      simp [nbrs, getNode]
    · rw [if_neg hx, if_neg hx]
      simp [nbrs, getNode]

lemma remove_edge_nodes (s : State) (x y : Nat) : (remove_edge s x y).nodes = s.nodes := rfl

lemma remove_edge_handles (s : State) (x y : Nat) :
    (remove_edge s x y).handles = s.handles := rfl

lemma remove_edge_store_length (s : State) (x y : Nat) :
    (remove_edge s x y).store.length = s.store.length := by
  simp [remove_edge, length_updateNbrs]

lemma nbrs_remove_edge (s : State) (x y j : Nat) :
    nbrs (remove_edge s x y) j =
      if j = y ∧ j < s.store.length then
        (if j = x then (nbrs s j).filter (fun w => alive s w && w != y)
         else nbrs s j).filter (fun w => alive s w && w != x)
      else if j = x ∧ j < s.store.length then
        (nbrs s j).filter (fun w => alive s w && w != y)
      else nbrs s j := by
  show ((updateNbrs (updateNbrs s.store x _) y _).getD j dNode).neighbors = _
  rw [getD_updateNbrs, length_updateNbrs, getD_updateNbrs]
  by_cases hy : j = y ∧ j < s.store.length
  · rw [if_pos hy, if_pos hy]
    by_cases hjx : j = x
    · rw [if_pos ⟨hjx, hy.2⟩, if_pos hjx]
      simp [nbrs, getNode]
    · rw [if_neg (fun hc => hjx hc.1), if_neg hjx]
      simp [nbrs, getNode]
  · rw [if_neg hy, if_neg hy]
    by_cases hx : j = x ∧ j < s.store.length
    · rw [if_pos hx, if_pos hx]
      simp [nbrs, getNode]
    · rw [if_neg hx, if_neg hx]
      simp [nbrs, getNode]

lemma add_node_nodes (s : State) (n : Node) :
    (add_node s n).1.nodes = s.nodes ++ [s.store.length] := rfl

lemma add_node_handles (s : State) (n : Node) :
    (add_node s n).1.handles = s.handles ++ [s.store.length] := rfl

lemma add_node_store_length (s : State) (n : Node) :
    (add_node s n).1.store.length = s.store.length + 1 := by
  simp [add_node]

lemma getNode_add_node (s : State) (n : Node) (j : Nat) :
    getNode (add_node s n).1 j =
      if j = s.store.length then n else getNode s j := by
  show (s.store ++ [n]).getD j dNode = _
  rcases Nat.lt_trichotomy j s.store.length with hlt | heq | hgt
  · have hj : j ≠ s.store.length := by omega
    rw [if_neg hj, List.getD_eq_getElem?_getD, List.getElem?_append_left hlt]
    simp [getNode, List.getD_eq_getElem?_getD]
  · subst heq
    rw [if_pos rfl, List.getD_eq_getElem?_getD,
      List.getElem?_append_right (Nat.le_refl _)]
    simp
  · have hj : j ≠ s.store.length := by omega
    have e1 : (s.store ++ [n])[j]? = none := by
      rw [List.getElem?_eq_none_iff]
      simp
      omega
    have e2 : s.store[j]? = none := by
      rw [List.getElem?_eq_none_iff]
      omega
    rw [if_neg hj, List.getD_eq_getElem?_getD, e1]
    show dNode = getNode s j
    unfold getNode
    rw [List.getD_eq_getElem?_getD, e2]
    rfl

lemma nbrs_add_node (s : State) (n : Node) (j : Nat) :
    nbrs (add_node s n).1 j =
      if j = s.store.length then n.neighbors else nbrs s j := by
  unfold nbrs
  rw [getNode_add_node]
  by_cases hj : j = s.store.length <;> simp [hj]

lemma nbrs_out_of_range (s : State) (j : Nat) (hj : s.store.length ≤ j) :
    nbrs s j = [] := by
  unfold nbrs getNode
  rw [List.getD_eq_getElem?_getD, List.getElem?_eq_none_iff.mpr (by omega)]
  rfl

lemma keepFn_of_mem_filter (s : State) (h b : Nat)
    (hb : b ∈ s.nodes.filter (fun x => x != h)) : keepFn s h b = true := by
  have h1 : (s.nodes.filter (fun x => x != h)).contains b = true := by
    simpa using hb
  have h2 : (b != h) = true := by
    simpa using (List.mem_filter.mp hb).2
  simp [keepFn, h1, h2]
  exact Or.inl (List.mem_filter.mp hb).1

lemma wf_init : Wf State.init := by
  refine ⟨by simp [State.init], by simp [State.init], ?_, by simp [State.init]⟩
  intro j w hw
  rw [nbrs_out_of_range State.init j (by simp [State.init])] at hw
  cases hw

lemma alive_lt (s : State) (w : Nat) (hwf : Wf s) (hw : alive s w = true) :
    w < s.store.length := by
  rcases (alive_iff s w).mp hw with h | h
  · exact hwf.1 w h
  · exact hwf.2.1 w h

lemma wf_add_node (s : State) (n : Node) (hn : n.neighbors = []) (hwf : Wf s) :
    Wf (add_node s n).1 := by
  obtain ⟨h1, h2, h3, h4⟩ := hwf
  rw [Wf, add_node_nodes, add_node_handles, add_node_store_length]
  refine ⟨?_, ?_, ?_, ?_⟩
  · intro i hi
    rcases List.mem_append.mp hi with hi | hi
    · exact Nat.lt_succ_of_lt (h1 i hi)
    · simp at hi
      omega
  · intro i hi
    rcases List.mem_append.mp hi with hi | hi
    · exact Nat.lt_succ_of_lt (h2 i hi)
    · simp at hi
      omega
  · intro j w hw
    rw [nbrs_add_node] at hw
    by_cases hj : j = s.store.length
    · rw [if_pos hj, hn] at hw
      cases hw
    · rw [if_neg hj] at hw
      exact Nat.lt_succ_of_lt (h3 j w hw)
  · rw [List.nodup_append]
    refine ⟨h4, List.nodup_singleton _, ?_⟩
    intro a ha hb
    simp at hb
    subst hb
    exact absurd (h1 _ ha) (by omega)

lemma wf_remove_node (s : State) (h : Nat) (hwf : Wf s) : Wf (remove_node s h) := by
  obtain ⟨h1, h2, h3, h4⟩ := hwf
  rw [Wf, remove_node_nodes, remove_node_handles, remove_node_store_length]
  refine ⟨?_, h2, ?_, List.Nodup.filter _ h4⟩
  · intro i hi
    exact h1 i (List.mem_filter.mp hi).1
  · intro j w hw
    rw [nbrs_remove_node] at hw
    by_cases hc : j ∈ s.nodes.filter (fun x => x != h) ∧ j < s.store.length
    · rw [if_pos hc] at hw
      exact h3 j w (List.mem_filter.mp hw).1
    · rw [if_neg hc] at hw
      exact h3 j w hw

lemma wf_add_edge (s : State) (x y : Nat) (hx : x < s.store.length)
    (hy : y < s.store.length) (hwf : Wf s) : Wf (add_edge s x y) := by
  obtain ⟨h1, h2, h3, h4⟩ := hwf
  rw [Wf, add_edge_nodes, add_edge_handles, add_edge_store_length]
  refine ⟨h1, h2, ?_, h4⟩
  intro j w hw
  rw [nbrs_add_edge] at hw
  by_cases hjy : j = y ∧ j < s.store.length
  · rw [if_pos hjy] at hw
    rcases List.mem_append.mp hw with hw | hw
    · by_cases hjx : j = x
      · rw [if_pos hjx] at hw
        rcases List.mem_append.mp hw with hw | hw
        · exact h3 j w hw
        · simp at hw
          omega
      · rw [if_neg hjx] at hw
        exact h3 j w hw
    · simp at hw
      omega
  · rw [if_neg hjy] at hw
    by_cases hjx : j = x ∧ j < s.store.length
    · rw [if_pos hjx] at hw
      rcases List.mem_append.mp hw with hw | hw
      · exact h3 j w hw
      · simp at hw
        omega
    · rw [if_neg hjx] at hw
      exact h3 j w hw

lemma wf_remove_edge (s : State) (x y : Nat) (hwf : Wf s) : Wf (remove_edge s x y) := by
  obtain ⟨h1, h2, h3, h4⟩ := hwf
  rw [Wf, remove_edge_nodes, remove_edge_handles, remove_edge_store_length]
  refine ⟨h1, h2, ?_, h4⟩
  intro j w hw
  rw [nbrs_remove_edge] at hw
  by_cases hjy : j = y ∧ j < s.store.length
  · rw [if_pos hjy] at hw
    by_cases hjx : j = x
    · rw [if_pos hjx] at hw
      exact h3 j w (List.mem_filter.mp (List.mem_filter.mp hw).1).1
    · rw [if_neg hjx] at hw
      exact h3 j w (List.mem_filter.mp hw).1
  · rw [if_neg hjy] at hw
    by_cases hjx : j = x ∧ j < s.store.length
    · rw [if_pos hjx] at hw
      exact h3 j w (List.mem_filter.mp hw).1
    · rw [if_neg hjx] at hw
      exact h3 j w hw

lemma wf_drop_handle (s : State) (h : Nat) (hwf : Wf s) : Wf (drop_handle s h) := by
  obtain ⟨h1, h2, h3, h4⟩ := hwf
  exact ⟨h1, fun i hi => h2 i (List.mem_filter.mp hi).1, h3, h4⟩

lemma wf_fetch_handle (s : State) (h : Nat) (hh : h ∈ s.nodes) (hwf : Wf s) :
    Wf (fetch_handle s h) := by
  obtain ⟨h1, h2, h3, h4⟩ := hwf
  refine ⟨h1, ?_, h3, h4⟩
  intro i hi
  rcases List.mem_append.mp hi with hi | hi
  · exact h2 i hi
  · simp at hi
    subst hi
    exact h1 i hh

lemma wf_step (s : State) (op : Op) (hwf : Wf s) (hv : valid s op = true) :
    Wf (step s op) := by
  cases op with
  | addNode nm att => exact wf_add_node s _ rfl hwf
  | removeNode h => exact wf_remove_node s h hwf
  | addEdge a b =>
    simp only [valid, Bool.and_eq_true] at hv
    exact wf_add_edge s a b (alive_lt s a hwf hv.1) (alive_lt s b hwf hv.2) hwf
  | removeEdge a b => exact wf_remove_edge s a b hwf
  | dropHandle h => exact wf_drop_handle s h hwf
  | fetchHandle h =>
    simp only [valid] at hv
    exact wf_fetch_handle s h (by simpa using hv) hwf

lemma run_preserves {P : State → Prop}
    (hP : ∀ s op, P s → valid s op = true → P (step s op)) :
    ∀ (ops : List Op) (s t : State), P s → run s ops = some t → P t := by
  intro ops
  induction ops with
  | nil =>
    intro s t hs h
    rw [run] at h
    cases h
    exact hs
  | cons op rest ih =>
    intro s t hs h
    rw [run] at h
    by_cases hv : valid s op = true
    · rw [if_pos hv] at h
      exact ih _ _ (hP s op hs hv) h
    · rw [if_neg hv] at h
      cases h

lemma reachable_wf (s : State) (hs : Reachable s) : Wf s := by
  obtain ⟨ops, h⟩ := hs
  exact run_preserves wf_step ops _ _ wf_init h

lemma mem_nbrs_remove_node (s : State) (h a b : Nat)
    (hb : b ∈ s.nodes.filter (fun x => x != h)) :
    b ∈ nbrs (remove_node s h) a ↔ b ∈ nbrs s a := by
  rw [nbrs_remove_node]
  by_cases hc : a ∈ s.nodes.filter (fun x => x != h) ∧ a < s.store.length
  · rw [if_pos hc]
    constructor
    · exact fun hx => (List.mem_filter.mp hx).1
    · intro hx
      exact List.mem_filter.mpr ⟨hx, keepFn_of_mem_filter s h b hb⟩
  · rw [if_neg hc]

lemma mem_nbrs_add_edge (s : State) (x y a b : Nat)
    (hx : x < s.store.length) (hy : y < s.store.length) :
    b ∈ nbrs (add_edge s x y) a ↔
      b ∈ nbrs s a ∨ (a = x ∧ b = y) ∨ (a = y ∧ b = x) := by
  rw [nbrs_add_edge]
  by_cases hay : a = y
  · rw [if_pos ⟨hay, by rw [hay]; exact hy⟩]
    by_cases hax : a = x
    · rw [if_pos hax]
      simp only [List.mem_append, List.mem_singleton]
      tauto
    · rw [if_neg hax]
      simp only [List.mem_append, List.mem_singleton]
      tauto
  · rw [if_neg (fun hc => hay hc.1)]
    by_cases hax : a = x
    · rw [if_pos ⟨hax, by rw [hax]; exact hx⟩]
      simp only [List.mem_append, List.mem_singleton]
      tauto
    · rw [if_neg (fun hc => hax hc.1)]
      tauto

lemma mem_nbrs_remove_edge (s : State) (x y a b : Nat) (hbal : alive s b = true) :
    b ∈ nbrs (remove_edge s x y) a ↔
      b ∈ nbrs s a ∧ ¬(a = x ∧ b = y) ∧ ¬(a = y ∧ b = x) := by
  rw [nbrs_remove_edge]
  by_cases hlt : a < s.store.length
  · by_cases hay : a = y
    · rw [if_pos ⟨hay, hlt⟩]
      by_cases hax : a = x
      · rw [if_pos hax]
        simp only [List.mem_filter, Bool.and_eq_true, bne_iff_ne, ne_eq, hbal,
          true_and]
        tauto
      · rw [if_neg hax]
        simp only [List.mem_filter, Bool.and_eq_true, bne_iff_ne, ne_eq, hbal,
          true_and]
        tauto
    · rw [if_neg (fun hc => hay hc.1)]
      by_cases hax : a = x
      · rw [if_pos ⟨hax, hlt⟩]
        simp only [List.mem_filter, Bool.and_eq_true, bne_iff_ne, ne_eq, hbal,
          true_and]
        tauto
      · rw [if_neg (fun hc => hax hc.1)]
        tauto
  · have h0 : nbrs s a = [] := nbrs_out_of_range s a (by omega)
    rw [if_neg (fun hc => hlt hc.2), if_neg (fun hc => hlt hc.2), h0]
    simp

lemma memInv_init : MemInv State.init := by
  intro a ha
  simp [State.init] at ha

lemma memInv_add_node (s : State) (n : Node) (hn : n.neighbors = [])
    (hm : MemInv s) : MemInv (add_node s n).1 := by
  intro a ha w hw
  rw [add_node_nodes] at ha ⊢
  rw [nbrs_add_node] at hw
  by_cases hj : a = s.store.length
  · rw [if_pos hj, hn] at hw
    cases hw
  · rw [if_neg hj] at hw
    rcases List.mem_append.mp ha with ha | ha
    · exact List.mem_append.mpr (Or.inl (hm a ha w hw))
    · simp at ha
      exact absurd ha hj

lemma memInv_remove_node (s : State) (h : Nat) (hm : MemInv s) :
    MemInv (remove_node s h) := by
  intro a ha w hw
  rw [remove_node_nodes] at ha ⊢
  rw [nbrs_remove_node] at hw
  by_cases hc : a ∈ s.nodes.filter (fun x => x != h) ∧ a < s.store.length
  · rw [if_pos hc] at hw
    have h1 : w ∈ nbrs s a := (List.mem_filter.mp hw).1
    have h2 : keepFn s h w = true := (List.mem_filter.mp hw).2
    have h3 : w ∈ s.nodes := hm a (List.mem_filter.mp ha).1 w h1
    have h4 : w ≠ h := by
      have := (Bool.and_eq_true _ _).mp h2
      simpa using this.2
    simp [List.mem_filter, h3, h4]
  · rw [if_neg hc] at hw
    have hlt : ¬ a < s.store.length := fun hl => hc ⟨ha, hl⟩
    rw [nbrs_out_of_range s a (by omega)] at hw
    cases hw

lemma memInv_add_edge (s : State) (x y : Nat) (hx : x ∈ s.nodes)
    (hy : y ∈ s.nodes) (hm : MemInv s) : MemInv (add_edge s x y) := by
  intro a ha w hw
  rw [add_edge_nodes] at ha ⊢
  rw [nbrs_add_edge] at hw
  by_cases hay : a = y ∧ a < s.store.length
  · rw [if_pos hay] at hw
    rcases List.mem_append.mp hw with hw | hw
    · by_cases hax : a = x
      · rw [if_pos hax] at hw
        rcases List.mem_append.mp hw with hw | hw
        · exact hm a ha w hw
        · simp at hw
          subst hw
          exact hy
      · rw [if_neg hax] at hw
        exact hm a ha w hw
    · simp at hw
      subst hw
      exact hx
  · rw [if_neg hay] at hw
    by_cases hax : a = x ∧ a < s.store.length
    · rw [if_pos hax] at hw
      rcases List.mem_append.mp hw with hw | hw
      · exact hm a ha w hw
      · simp at hw
        subst hw
        exact hy
    · rw [if_neg hax] at hw
      exact hm a ha w hw

lemma memInv_remove_edge (s : State) (x y : Nat) (hm : MemInv s) :
    MemInv (remove_edge s x y) := by
  intro a ha w hw
  rw [remove_edge_nodes] at ha ⊢
  rw [nbrs_remove_edge] at hw
  by_cases hay : a = y ∧ a < s.store.length
  · rw [if_pos hay] at hw
    by_cases hax : a = x
    · rw [if_pos hax] at hw
      exact hm a ha w (List.mem_filter.mp (List.mem_filter.mp hw).1).1
    · rw [if_neg hax] at hw
      exact hm a ha w (List.mem_filter.mp hw).1
  · rw [if_neg hay] at hw
    by_cases hax : a = x ∧ a < s.store.length
    · rw [if_pos hax] at hw
      exact hm a ha w (List.mem_filter.mp hw).1
    · rw [if_neg hax] at hw
      exact hm a ha w hw

lemma memInv_step (s : State) (op : Op) (hm : MemInv s)
    (hv : validStrict s op = true) : MemInv (step s op) := by
  cases op with
  | addNode nm att => exact memInv_add_node s _ rfl hm
  | removeNode h => exact memInv_remove_node s h hm
  | addEdge a b =>
    simp only [validStrict, Bool.and_eq_true] at hv
    exact memInv_add_edge s a b (by simpa using hv.1) (by simpa using hv.2) hm
  | removeEdge a b => exact memInv_remove_edge s a b hm
  | dropHandle h => exact fun a ha w hw => hm a ha w hw
  | fetchHandle h => exact fun a ha w hw => hm a ha w hw

lemma runStrict_preserves {P : State → Prop}
    (hP : ∀ s op, P s → validStrict s op = true → P (step s op)) :
    ∀ (ops : List Op) (s t : State), P s → runStrict s ops = some t → P t := by
  intro ops
  induction ops with
  | nil =>
    intro s t hs h
    rw [runStrict] at h
    cases h
    exact hs
  | cons op rest ih =>
    intro s t hs h
    rw [runStrict] at h
    by_cases hv : (validStrict s op && valid s op) = true
    · rw [if_pos hv] at h
      exact ih _ _ (hP s op hs ((Bool.and_eq_true _ _).mp hv).1) h
    · rw [if_neg hv] at h
      cases h

lemma reachableStrict_memInv (s : State) (hs : ReachableStrict s) : MemInv s := by
  obtain ⟨ops, h⟩ := hs
  exact runStrict_preserves memInv_step ops _ _ memInv_init h

lemma sym_init : EdgeSym State.init := by
  intro a ha
  simp [State.init] at ha

lemma sym_add_node (s : State) (n : Node) (hn : n.neighbors = [])
    (hwf : Wf s) (hs : EdgeSym s) : EdgeSym (add_node s n).1 := by
  intro a ha b hb
  rw [add_node_nodes] at ha hb
  rw [nbrs_add_node, nbrs_add_node]
  rcases List.mem_append.mp ha with ha | ha <;> rcases List.mem_append.mp hb with hb | hb
  · have hane : a ≠ s.store.length := by
      have := hwf.1 a ha
      omega
    have hbne : b ≠ s.store.length := by
      have := hwf.1 b hb
      omega
    rw [if_neg hane, if_neg hbne]
    exact hs a ha b hb
  · simp at hb
    subst hb
    have hane : a ≠ s.store.length := by
      have := hwf.1 a ha
      omega
    rw [if_neg hane, if_pos rfl, hn]
    simp
    intro hmem
    exact absurd (hwf.2.2.1 a _ hmem) (by omega)
  · simp at ha
    subst ha
    have hbne : b ≠ s.store.length := by
      have := hwf.1 b hb
      omega
    rw [if_pos rfl, if_neg hbne, hn]
    simp
    intro hmem
    exact absurd (hwf.2.2.1 b _ hmem) (by omega)
  · simp at ha hb
    subst ha
    subst hb
    exact Iff.rfl

lemma sym_remove_node (s : State) (h : Nat) (hs : EdgeSym s) : EdgeSym (remove_node s h) := by
  intro a ha b hb
  rw [remove_node_nodes] at ha hb
  rw [mem_nbrs_remove_node s h a b hb, mem_nbrs_remove_node s h b a ha]
  exact hs a (List.mem_filter.mp ha).1 b (List.mem_filter.mp hb).1

lemma sym_add_edge (s : State) (x y : Nat) (hx : x < s.store.length)
    (hy : y < s.store.length) (hs : EdgeSym s) : EdgeSym (add_edge s x y) := by
  intro a ha b hb
  rw [add_edge_nodes] at ha hb
  rw [mem_nbrs_add_edge s x y a b hx hy, mem_nbrs_add_edge s x y b a hx hy]
  have h0 := hs a ha b hb
  tauto

lemma sym_remove_edge (s : State) (x y : Nat) (hs : EdgeSym s) :
    EdgeSym (remove_edge s x y) := by
  intro a ha b hb
  rw [remove_edge_nodes] at ha hb
  have hbal : alive s b = true := (alive_iff s b).mpr (Or.inl hb)
  have haal : alive s a = true := (alive_iff s a).mpr (Or.inl ha)
  rw [mem_nbrs_remove_edge s x y a b hbal, mem_nbrs_remove_edge s x y b a haal]
  have h0 := hs a ha b hb
  tauto

lemma sym_drop_handle (s : State) (h : Nat) (hs : EdgeSym s) : EdgeSym (drop_handle s h) :=
  fun a ha b hb => hs a ha b hb

lemma sym_fetch_handle (s : State) (h : Nat) (hs : EdgeSym s) : EdgeSym (fetch_handle s h) :=
  fun a ha b hb => hs a ha b hb

lemma sym_step (s : State) (op : Op) (hwf : Wf s) (hs : EdgeSym s)
    (hv : valid s op = true) : EdgeSym (step s op) := by
  cases op with
  | addNode nm att => exact sym_add_node s _ rfl hwf hs
  | removeNode h => exact sym_remove_node s h hs
  | addEdge a b =>
    simp only [valid, Bool.and_eq_true] at hv
    exact sym_add_edge s a b (alive_lt s a hwf hv.1) (alive_lt s b hwf hv.2) hs
  | removeEdge a b => exact sym_remove_edge s a b hs
  | dropHandle h => exact sym_drop_handle s h hs
  | fetchHandle h => exact sym_fetch_handle s h hs

lemma reachable_wf_sym (s : State) (hs : Reachable s) : Wf s ∧ EdgeSym s := by
  obtain ⟨ops, h⟩ := hs
  exact @run_preserves (fun s => Wf s ∧ EdgeSym s)
    (fun s op hp hv => ⟨wf_step s op hp.1 hv, sym_step s op hp.1 hp.2 hv⟩)
    ops _ _ ⟨wf_init, sym_init⟩ h

/-- C1.  The spec claims that after remove_node the removed node is
gone from the node collection and from every remaining neighbor
enumeration, and generally that every node reachable through a
member's adjacency list is a member — quantified over all reachable
states, including sequences calling add_edge after a removal.  The
general form is false: after removing node 1 (whose handle the caller
keeps) and then calling add_edge 0 1, member 0's neighbor enumeration
yields 1, which is not in the node collection. -/
theorem C1_counterexample :
    run State.init c1ops = some c1state ∧
    0 ∈ c1state.nodes ∧ 1 ∈ neighborsLive c1state 0 ∧ 1 ∉ c1state.nodes := by
  refine ⟨by decide, by decide, by decide, by decide⟩

/-- C2.  The regional map has 14 edges, not the 13 the spec claims:
gen_test_turkey_region makes 14 add_edge calls on distinct pairs. -/
theorem C2_counterexample :
    edgeCount gen_test_turkey_region = 14 ∧
    ¬ (edgeCount gen_test_turkey_region = 13) := by
  refine ⟨by decide, by decide⟩

/-- C2 (amended).  Building the 8-node regional map yields node count
8 and edge count 14 (not 13), and Black Sea (cell 4) is adjacent to
exactly Constantinople (0), Ankara (2), Sevastopol (3) and
Armenia (6). -/
theorem C2_theorem :
    gen_test_turkey_region.nodes.length = 8 ∧
    edgeCount gen_test_turkey_region = 14 ∧
    (getNode gen_test_turkey_region 4).name = "Black Sea" ∧
    neighborsLive gen_test_turkey_region 4 = [0, 2, 3, 6] ∧
    (getNode gen_test_turkey_region 0).name = "Constantinople" ∧
    (getNode gen_test_turkey_region 2).name = "Ankara" ∧
    (getNode gen_test_turkey_region 3).name = "Sevastopol" ∧
    (getNode gen_test_turkey_region 6).name = "Armenia" := by
  refine ⟨by decide, by decide, by decide, by decide, by decide, by decide,
    by decide, by decide⟩

/-- C8.  Removing Ankara (cell 2) from the triangle map leaves node
count 2; Constantinople (0) and Smyrna (1) each enumerate exactly one
live neighbor, namely each other, and neither enumeration contains the
removed Ankara node. -/
theorem C8_theorem :
    turkeyMinusAnkara.nodes.length = 2 ∧
    (getNode turkeyMinusAnkara 0).name = "Constantinople" ∧
    (getNode turkeyMinusAnkara 1).name = "Smyrna" ∧
    (getNode turkeyMinusAnkara 2).name = "Ankara" ∧
    neighborsLive turkeyMinusAnkara 0 = [1] ∧
    neighborsLive turkeyMinusAnkara 1 = [0] ∧
    2 ∉ neighborsLive turkeyMinusAnkara 0 ∧
    2 ∉ neighborsLive turkeyMinusAnkara 1 := by
  refine ⟨by decide, by decide, by decide, by decide, by decide, by decide,
    by decide, by decide⟩

/-- C1 (amended).  Immediately after remove_node(h) the removed node is
absent from the node collection and no remaining member's neighbor
enumeration yields it, in every state; and the global closure property
— every node reachable through a member's adjacency list is itself a
member — holds for every state reachable while add_edge and
remove_edge respect their documented membership precondition. -/
theorem C1_theorem :
    (∀ (s : State) (h : Nat),
      h ∉ (remove_node s h).nodes ∧
      ∀ a ∈ (remove_node s h).nodes, h ∉ neighborsLive (remove_node s h) a) ∧
    (∀ s : State, ReachableStrict s →
      ∀ a ∈ s.nodes, ∀ w ∈ neighborsLive s a, w ∈ s.nodes) := by
  constructor
  · intro s h
    constructor
    · rw [remove_node_nodes]
      simp [List.mem_filter]
    · intro a ha hmem
      have hraw : h ∈ nbrs (remove_node s h) a := (List.mem_filter.mp hmem).1
      rw [remove_node_nodes] at ha
      rw [nbrs_remove_node] at hraw
      by_cases hc : a ∈ s.nodes.filter (fun x => x != h) ∧ a < s.store.length
      · rw [if_pos hc] at hraw
        have hk := (List.mem_filter.mp hraw).2
        simp [keepFn] at hk
      · rw [if_neg hc] at hraw
        have hlt : ¬ a < s.store.length := fun hl => hc ⟨ha, hl⟩
        rw [nbrs_out_of_range s a (by omega)] at hraw
        cases hraw
  · intro s hs a ha w hw
    exact reachableStrict_memInv s hs a ha w (List.mem_filter.mp hw).1

/-- Witness for C1: instantiated on the triangle map (remove Ankara,
cell 2) and on the strictly reachable triangle state with member 0 and
its live neighbor 2. -/
theorem C1_witness :
    (2 ∉ (remove_node gen_test_turkey 2).nodes ∧
      ∀ a ∈ (remove_node gen_test_turkey 2).nodes,
        2 ∉ neighborsLive (remove_node gen_test_turkey 2) a) ∧
    2 ∈ gen_test_turkey.nodes :=
  ⟨C1_theorem.1 gen_test_turkey 2,
   C1_theorem.2 gen_test_turkey ⟨turkeyOps, by decide⟩ 0 (by decide) 2 (by decide)⟩

/-- C5.  In every reachable state, for distinct members a and b, b
appears in a's live neighbor enumeration exactly when a appears in
b's: add_edge inserts on both sides and the removal operations delete
on both sides. -/
theorem C5_theorem (s : State) (hs : Reachable s) (a b : Nat)
    (ha : a ∈ s.nodes) (hb : b ∈ s.nodes) (hab : a ≠ b) :
    b ∈ neighborsLive s a ↔ a ∈ neighborsLive s b := by
  have hsym := (reachable_wf_sym s hs).2
  have hba : alive s b = true := (alive_iff s b).mpr (Or.inl hb)
  have haa : alive s a = true := (alive_iff s a).mpr (Or.inl ha)
  unfold neighborsLive
  rw [List.mem_filter, List.mem_filter]
  constructor
  · intro h1
    exact ⟨(hsym a ha b hb).mp h1.1, haa⟩
  · intro h1
    exact ⟨(hsym a ha b hb).mpr h1.1, hba⟩

/-- Witness for C5: Constantinople (0) and Ankara (2) in the reachable
triangle state. -/
theorem C5_witness :
    2 ∈ neighborsLive gen_test_turkey 0 ↔ 0 ∈ neighborsLive gen_test_turkey 2 :=
  C5_theorem gen_test_turkey ⟨turkeyOps, by decide⟩ 0 2 (by decide) (by decide)
    (by decide)

/-- C10.  remove_node(h) leaves the caller's handles alone, never
rewrites the removed cell's contents — a caller still holding the
handle sees the same name, classification and adjacency list — and
rewrites no cell outside the remaining members; on every cell only the
adjacency list can change, never the name or classification. -/
theorem C10_theorem (s : State) (h : Nat) :
    (remove_node s h).handles = s.handles ∧
    getNode (remove_node s h) h = getNode s h ∧
    (∀ i, i ∉ (remove_node s h).nodes → getNode (remove_node s h) i = getNode s i) ∧
    (∀ i, (getNode (remove_node s h) i).name = (getNode s i).name ∧
      (getNode (remove_node s h) i).attributes = (getNode s i).attributes) := by
  have hmain : ∀ i, i ∉ s.nodes.filter (fun x => x != h) →
      getNode (remove_node s h) i = getNode s i := by
    intro i hi
    rw [getNode_remove_node, if_neg (fun hc => hi hc.1)]
  refine ⟨rfl, ?_, ?_, ?_⟩
  · exact hmain h (by simp)
  · intro i hi
    rw [remove_node_nodes] at hi
    exact hmain i hi
  · intro i
    rw [getNode_remove_node]
    by_cases hc : i ∈ s.nodes.filter (fun x => x != h) ∧ i < s.store.length
    · rw [if_pos hc]
      exact ⟨rfl, rfl⟩
    · rw [if_neg hc]
      exact ⟨rfl, rfl⟩

/-- Witness for C10: removing Ankara (cell 2) from the triangle map
leaves the handles, the removed cell, and the non-member cell 5
untouched. -/
theorem C10_witness :
    (remove_node gen_test_turkey 2).handles = gen_test_turkey.handles ∧
    getNode (remove_node gen_test_turkey 2) 2 = getNode gen_test_turkey 2 ∧
    getNode (remove_node gen_test_turkey 2) 5 = getNode gen_test_turkey 5 :=
  ⟨(C10_theorem gen_test_turkey 2).1,
   (C10_theorem gen_test_turkey 2).2.1,
   (C10_theorem gen_test_turkey 2).2.2.1 5 (by decide)⟩

/-- C9.  The spec claims add_edge with a handle to a node not in the
graph either performs no mutation or reports an error, and never
creates an adjacency reference to a non-member.  False: add_edge
performs no membership check, mutates both adjacency lists, reports
nothing, and the new entry targets the non-member — which even shows
up in the live neighbor enumeration while the caller's handle
survives. -/
theorem C9_counterexample :
    run State.init c9ops = some c9state ∧
    1 ∉ c9state.nodes ∧
    add_edge c9state 0 1 ≠ c9state ∧
    1 ∈ nbrs (add_edge c9state 0 1) 0 ∧
    1 ∈ neighborsLive (add_edge c9state 0 1) 0 ∧
    1 ∉ (add_edge c9state 0 1).nodes := by
  refine ⟨by decide, by decide, by decide, by decide, by decide, by decide⟩

/-- C9 (amended).  add_edge inserts unconditionally: for any two
distinct live cells it appends each to the other's adjacency list,
touches no other cell and reports no error; in particular, when the
target is not a member of the graph the new adjacency entry refers to
a node absent from the node collection. -/
theorem C9_theorem (s : State) (a b : Nat)
    (hal : a < s.store.length) (hbl : b < s.store.length) (hab : a ≠ b) :
    nbrs (add_edge s a b) a = nbrs s a ++ [b] ∧
    nbrs (add_edge s a b) b = nbrs s b ++ [a] ∧
    (add_edge s a b).nodes = s.nodes ∧
    (add_edge s a b).handles = s.handles ∧
    (∀ j, j ≠ a → j ≠ b → getNode (add_edge s a b) j = getNode s j) ∧
    (b ∉ s.nodes → b ∈ nbrs (add_edge s a b) a ∧ b ∉ (add_edge s a b).nodes) := by
  have hea : nbrs (add_edge s a b) a = nbrs s a ++ [b] := by
    rw [nbrs_add_edge, if_neg (fun hc => hab hc.1), if_pos ⟨rfl, hal⟩]
  refine ⟨hea, ?_, rfl, rfl, ?_, ?_⟩
  · rw [nbrs_add_edge, if_pos ⟨rfl, hbl⟩, if_neg (Ne.symm hab)]
  · intro j hja hjb
    show (pushNbr (pushNbr s.store a b) b a).getD j dNode = _
    rw [getNode_pushNbr, if_neg (fun hc => hjb hc.1), getNode_pushNbr,
      if_neg (fun hc => hja hc.1)]
    rfl
  · intro hbn
    refine ⟨?_, hbn⟩
    rw [hea]
    simp

lemma keepFn_remove_node (s : State) (h : Nat) :
    keepFn (remove_node s h) h = keepFn s h := by
  funext w
  unfold keepFn
  rw [remove_node_nodes, remove_node_handles, filter_idem]

/-- C3.  The spec claims remove_node with a handle that is not a
current member leaves the graph state unchanged.  False: in the
reachable state where member 0's adjacency list holds an entry for
the non-member 1, remove_node(1) purges that entry and so changes the
state. -/
theorem C3_counterexample :
    run State.init c3ops = some c3state ∧
    1 ∉ c3state.nodes ∧
    remove_node c3state 1 ≠ c3state := by
  refine ⟨by decide, by decide, by decide⟩

/-- C3 (amended).  remove_node is idempotent: two calls in a row with
the same handle equal one call, in every state.  A call with a handle
that is not a current member never faults and leaves the node
collection and the caller handles unchanged; it leaves the whole state
unchanged provided the members' adjacency lists hold no entry for the
removed handle and no stale entry. -/
theorem C3_theorem :
    (∀ (s : State) (h : Nat),
      remove_node (remove_node s h) h = remove_node s h) ∧
    (∀ (s : State) (h : Nat), h ∉ s.nodes →
      (remove_node s h).nodes = s.nodes ∧
      (remove_node s h).handles = s.handles ∧
      ((∀ a ∈ s.nodes, ∀ w ∈ nbrs s a, alive s w = true ∧ w ≠ h) →
        remove_node s h = s)) := by
  constructor
  · intro s h
    apply stateExt
    · apply store_ext
      · simp only [remove_node_store_length]
      · intro j
        show getNode (remove_node (remove_node s h) h) j = getNode (remove_node s h) j
        rw [getNode_remove_node (remove_node s h) h j]
        simp only [remove_node_nodes, remove_node_store_length, filter_idem,
          keepFn_remove_node]
        by_cases hc : j ∈ s.nodes.filter (fun x => x != h) ∧ j < s.store.length
        · rw [if_pos hc, getNode_remove_node s h j, if_pos hc]
          simp [filter_idem]
        · rw [if_neg hc]
    · simp only [remove_node_nodes, filter_idem]
    · rfl
  · intro s h hnot
    have hfeq : s.nodes.filter (fun x => x != h) = s.nodes := by
      rw [List.filter_eq_self]
      intro a ha
      simp
      intro e
      subst e
      exact hnot ha
    refine ⟨by rw [remove_node_nodes, hfeq], rfl, ?_⟩
    intro hlive
    apply stateExt
    · apply store_ext
      · simp only [remove_node_store_length]
      · intro j
        show getNode (remove_node s h) j = getNode s j
        rw [getNode_remove_node]
        by_cases hc : j ∈ s.nodes.filter (fun x => x != h) ∧ j < s.store.length
        · rw [if_pos hc]
          have hj : j ∈ s.nodes := by
            rw [hfeq] at hc
            exact hc.1
          have hk : ∀ w ∈ (getNode s j).neighbors, keepFn s h w = true := by
            intro w hw
            obtain ⟨hal, hne⟩ := hlive j hj w hw
            unfold keepFn
            rw [hfeq]
            show (alive s w && (w != h)) = true
            rw [hal]
            simp [hne]
          rw [List.filter_eq_self.mpr hk]
        · rw [if_neg hc]
    · rw [remove_node_nodes, hfeq]
    · rfl

/-- Witness for C3: double removal of Ankara (cell 2) on the triangle
map, and removal of the never-created handle 5, which changes
nothing. -/
theorem C3_witness :
    remove_node (remove_node gen_test_turkey 2) 2 = remove_node gen_test_turkey 2 ∧
    (remove_node gen_test_turkey 5).nodes = gen_test_turkey.nodes ∧
    remove_node gen_test_turkey 5 = gen_test_turkey :=
  ⟨C3_theorem.1 gen_test_turkey 2,
   (C3_theorem.2 gen_test_turkey 5 (by decide)).1,
   (C3_theorem.2 gen_test_turkey 5 (by decide)).2.2 (by decide)⟩

lemma nodeExt (n1 n2 : Node) (h1 : n1.name = n2.name)
    (h2 : n1.attributes = n2.attributes) (h3 : n1.neighbors = n2.neighbors) :
    n1 = n2 := by
  cases n1
  cases n2
  simp_all

lemma getD_updateNbrs_name (st : List Node) (i : Nat) (f : List Nat → List Nat)
    (j : Nat) : ((updateNbrs st i f).getD j dNode).name = (st.getD j dNode).name := by
  rw [getD_updateNbrs]
  split
  · rfl
  · rfl

lemma getD_updateNbrs_attrs (st : List Node) (i : Nat) (f : List Nat → List Nat)
    (j : Nat) :
    ((updateNbrs st i f).getD j dNode).attributes = (st.getD j dNode).attributes := by
  rw [getD_updateNbrs]
  split
  · rfl
  · rfl

lemma getNode_name_add_edge (s : State) (x y j : Nat) :
    (getNode (add_edge s x y) j).name = (getNode s j).name := by
  show ((pushNbr (pushNbr s.store x y) y x).getD j dNode).name = _
  simp only [pushNbr]
  rw [getD_updateNbrs_name, getD_updateNbrs_name]
  rfl

lemma getNode_attrs_add_edge (s : State) (x y j : Nat) :
    (getNode (add_edge s x y) j).attributes = (getNode s j).attributes := by
  show ((pushNbr (pushNbr s.store x y) y x).getD j dNode).attributes = _
  simp only [pushNbr]
  rw [getD_updateNbrs_attrs, getD_updateNbrs_attrs]
  rfl

lemma getNode_name_remove_edge (s : State) (x y j : Nat) :
    (getNode (remove_edge s x y) j).name = (getNode s j).name := by
  show ((updateNbrs (updateNbrs s.store x _) y _).getD j dNode).name = _
  rw [getD_updateNbrs_name, getD_updateNbrs_name]
  rfl

lemma getNode_attrs_remove_edge (s : State) (x y j : Nat) :
    (getNode (remove_edge s x y) j).attributes = (getNode s j).attributes := by
  show ((updateNbrs (updateNbrs s.store x _) y _).getD j dNode).attributes = _
  rw [getD_updateNbrs_attrs, getD_updateNbrs_attrs]
  rfl

lemma alive_add_edge (s : State) (x y : Nat) : alive (add_edge s x y) = alive s := rfl

lemma filter_live_ne_self (s : State) (l : List Nat) (c : Nat)
    (hl : ∀ w ∈ l, alive s w = true) (hc : c ∉ l) :
    l.filter (fun w => alive s w && w != c) = l := by
  rw [List.filter_eq_self]
  intro w hw
  have h1 : alive s w = true := hl w hw
  have h2 : w ≠ c := fun e => hc (e ▸ hw)
  rw [h1]
  simpa using h2

lemma roundtrip_list (s : State) (l : List Nat) (c : Nat)
    (hl : ∀ w ∈ l, alive s w = true) (hc : c ∉ l) :
    (l ++ [c]).filter (fun w => alive s w && w != c) = l := by
  rw [List.filter_append, filter_live_ne_self s l c hl hc]
  simp

lemma filter_two_self (s : State) (l : List Nat) (j : Nat)
    (hl : ∀ w ∈ l, alive s w = true) (hj : j ∉ l) :
    ((l ++ [j]) ++ [j]).filter (fun w => alive s w && w != j) = l := by
  rw [List.filter_append, roundtrip_list s l j hl hj]
  have hp : (alive s j && (j != j)) = false := by simp
  simp [List.filter, hp]

lemma remove_edge_noop (s : State) (a b : Nat)
    (hna : b ∉ nbrs s a) (hnb : a ∉ nbrs s b)
    (hla : ∀ w ∈ nbrs s a, alive s w = true)
    (hlb : ∀ w ∈ nbrs s b, alive s w = true) :
    remove_edge s a b = s := by
  apply stateExt
  · apply store_ext
    · simp only [remove_edge_store_length]
    · intro j
      show getNode (remove_edge s a b) j = getNode s j
      apply nodeExt _ _ (getNode_name_remove_edge s a b j)
        (getNode_attrs_remove_edge s a b j)
      show nbrs (remove_edge s a b) j = nbrs s j
      rw [nbrs_remove_edge]
      by_cases hjb : j = b ∧ j < s.store.length
      · obtain ⟨h1, h2⟩ := hjb
        subst h1
        rw [if_pos ⟨rfl, h2⟩]
        by_cases hba : j = a
        · subst hba
          rw [if_pos rfl, filter_live_ne_self s _ _ hla hna,
            filter_live_ne_self s _ _ hla hna]
        · rw [if_neg hba, filter_live_ne_self s _ _ hlb hnb]
      · rw [if_neg hjb]
        by_cases hja : j = a ∧ j < s.store.length
        · obtain ⟨h1, h2⟩ := hja
          subst h1
          rw [if_pos ⟨rfl, h2⟩, filter_live_ne_self s _ _ hla hna]
        · rw [if_neg hja]
  · rfl
  · rfl

/-- C4.  The spec claims add_edge then remove_edge restores the two
adjacency lists whenever no duplicate edges were present.  False when
the two nodes are already adjacent (a single, non-duplicated edge):
add_edge duplicates the entry and remove_edge deletes both copies,
leaving the lists empty instead of restored. -/
theorem C4_counterexample :
    run State.init c4ops = some c4state ∧
    0 ∈ c4state.nodes ∧ 1 ∈ c4state.nodes ∧
    (nbrs c4state 0).Nodup ∧ (nbrs c4state 1).Nodup ∧
    remove_edge (add_edge c4state 0 1) 0 1 ≠ c4state := by
  refine ⟨by decide, by decide, by decide, by decide, by decide, by decide⟩

/-- C4 (amended).  In every reachable state in which a and b are both
members, are not yet adjacent to each other, and whose adjacency lists
hold no stale entry, add_edge(a,b) followed by remove_edge(a,b)
restores the state exactly. -/
theorem C4_theorem (s : State) (a b : Nat) (hr : Reachable s)
    (ha : a ∈ s.nodes) (hb : b ∈ s.nodes)
    (hna : b ∉ nbrs s a) (hnb : a ∉ nbrs s b)
    (hla : ∀ w ∈ nbrs s a, alive s w = true)
    (hlb : ∀ w ∈ nbrs s b, alive s w = true) :
    remove_edge (add_edge s a b) a b = s := by
  have hwf := reachable_wf s hr
  have hal : a < s.store.length := hwf.1 a ha
  have hbl : b < s.store.length := hwf.1 b hb
  apply stateExt
  · apply store_ext
    · simp only [remove_edge_store_length, add_edge_store_length]
    · intro j
      show getNode (remove_edge (add_edge s a b) a b) j = getNode s j
      apply nodeExt
      · rw [getNode_name_remove_edge, getNode_name_add_edge]
      · rw [getNode_attrs_remove_edge, getNode_attrs_add_edge]
      · show nbrs (remove_edge (add_edge s a b) a b) j = nbrs s j
        rw [nbrs_remove_edge]
        simp only [add_edge_store_length, alive_add_edge]
        by_cases hjb : j = b
        · subst hjb
          by_cases hba : j = a
          · subst hba
            have hcond : j = j ∧ j < s.store.length := ⟨rfl, hbl⟩
            have hadd : nbrs (add_edge s j j) j = (nbrs s j ++ [j]) ++ [j] := by
              rw [nbrs_add_edge, if_pos hcond, if_pos rfl]
            rw [if_pos hcond, if_pos rfl, hadd, filter_two_self s _ j hla hna,
              filter_live_ne_self s _ j hla hna]
          · have hcond : j = j ∧ j < s.store.length := ⟨rfl, hbl⟩
            have hadd : nbrs (add_edge s a j) j = nbrs s j ++ [a] := by
              rw [nbrs_add_edge, if_pos hcond, if_neg hba]
            rw [if_pos hcond, if_neg hba, hadd, roundtrip_list s _ a hlb hnb]
        · by_cases hja : j = a
          · subst hja
            have hcond : j = j ∧ j < s.store.length := ⟨rfl, hal⟩
            have hadd : nbrs (add_edge s j b) j = nbrs s j ++ [b] := by
              rw [nbrs_add_edge, if_neg (fun hc => hjb hc.1), if_pos hcond]
            rw [if_neg (fun hc => hjb hc.1), if_pos hcond, hadd,
              roundtrip_list s _ b hla hna]
          · have hadd : nbrs (add_edge s a b) j = nbrs s j := by
              rw [nbrs_add_edge, if_neg (fun hc => hjb hc.1),
                if_neg (fun hc => hja hc.1)]
            rw [if_neg (fun hc => hjb hc.1), if_neg (fun hc => hja hc.1), hadd]
  · rfl
  · rfl

/-- Witness for C4: the round trip on two unconnected members. -/
theorem C4_witness : remove_edge (add_edge c4wState 0 1) 0 1 = c4wState :=
  C4_theorem c4wState 0 1 ⟨c4wOps, by decide⟩ (by decide) (by decide)
    (by decide) (by decide) (by decide) (by decide)

/-- C6.  The spec claims remove_edge is a no-op when no adjacency entry
connects the two nodes.  False: remove_edge's retain also purges stale
entries, so in the reachable state where member 0 holds a stale entry
for the dead node 2 and no entry for 1, remove_edge(0,1) still changes
the state. -/
theorem C6_counterexample :
    run State.init c6ops = some c6state ∧
    1 ∉ nbrs c6state 0 ∧ 0 ∉ nbrs c6state 1 ∧
    remove_edge c6state 0 1 ≠ c6state := by
  refine ⟨by decide, by decide, by decide, by decide⟩

/-- C6 (amended).  remove_edge deletes every adjacency entry between
the two nodes, duplicates included: after adding the same edge twice, a
single remove_edge leaves zero entries between the two nodes on each
side; and when no adjacency entry between the two nodes exists and
neither node's adjacency list holds a stale entry, remove_edge leaves
the state unchanged. -/
theorem C6_theorem :
    (∀ (s : State) (a b : Nat),
      List.count b (nbrs (remove_edge (add_edge (add_edge s a b) a b) a b) a) = 0 ∧
      List.count a (nbrs (remove_edge (add_edge (add_edge s a b) a b) a b) b) = 0) ∧
    (∀ (s : State) (a b : Nat),
      b ∉ nbrs s a → a ∉ nbrs s b →
      (∀ w ∈ nbrs s a, alive s w = true) → (∀ w ∈ nbrs s b, alive s w = true) →
      remove_edge s a b = s) := by
  constructor
  · have hcount : ∀ (t : State) (a b : Nat),
        List.count b (nbrs (remove_edge t a b) a) = 0 ∧
        List.count a (nbrs (remove_edge t a b) b) = 0 := by
      intro t a b
      constructor
      · rw [List.count_eq_zero]
        intro hmem
        rw [nbrs_remove_edge] at hmem
        by_cases hab : a = b ∧ a < t.store.length
        · rw [if_pos hab] at hmem
          have := (List.mem_filter.mp hmem).2
          simp at this
          exact this.2 hab.1.symm
        · rw [if_neg hab] at hmem
          by_cases haa : a = a ∧ a < t.store.length
          · rw [if_pos haa] at hmem
            have := (List.mem_filter.mp hmem).2
            simp at this
          · rw [if_neg haa] at hmem
            have hlt : ¬ a < t.store.length := fun hl => haa ⟨rfl, hl⟩
            rw [nbrs_out_of_range t a (by omega)] at hmem
            cases hmem
      · rw [List.count_eq_zero]
        intro hmem
        rw [nbrs_remove_edge] at hmem
        by_cases hbb : b = b ∧ b < t.store.length
        · rw [if_pos hbb] at hmem
          have := (List.mem_filter.mp hmem).2
          simp at this
        · rw [if_neg hbb] at hmem
          have hlt : ¬ b < t.store.length := fun hl => hbb ⟨rfl, hl⟩
          have hba : ¬ (b = a ∧ b < t.store.length) := fun hc => hlt hc.2
          rw [if_neg hba, nbrs_out_of_range t b (by omega)] at hmem
          cases hmem
    intro s a b
    exact hcount (add_edge (add_edge s a b) a b) a b
  · intro s a b hna hnb hla hlb
    exact remove_edge_noop s a b hna hnb hla hlb

/-- Witness for C6: double edge between the two members of c4wState,
then one removal, leaving no entries; and the no-op on the untouched
state. -/
theorem C6_witness :
    List.count 1
      (nbrs (remove_edge (add_edge (add_edge c4wState 0 1) 0 1) 0 1) 0) = 0 ∧
    remove_edge c4wState 0 1 = c4wState :=
  ⟨(C6_theorem.1 c4wState 0 1).1,
   C6_theorem.2 c4wState 0 1 (by decide) (by decide) (by decide) (by decide)⟩

/-- Witness for C9: adding an edge from member 0 to the removed but
still-held cell 1 of c9state mutates member 0's list and leaves the
target outside the node collection. -/
theorem C9_witness :
    nbrs (add_edge c9state 0 1) 0 = nbrs c9state 0 ++ [1] ∧
    1 ∈ nbrs (add_edge c9state 0 1) 0 ∧ 1 ∉ (add_edge c9state 0 1).nodes :=
  ⟨(C9_theorem c9state 0 1 (by decide) (by decide) (by decide)).1,
   (C9_theorem c9state 0 1 (by decide) (by decide) (by decide)).2.2.2.2.2
     (by decide)⟩

/-- One create_node call per (name, classification) pair. -/
lemma run_append (s : State) (l1 l2 : List Op) :
    run s (l1 ++ l2) = (run s l1).bind (fun t => run t l2) := by
  induction l1 generalizing s with
  | nil => rw [List.nil_append, run, Option.some_bind]
  | cons op rest ih =>
    rw [List.cons_append, run, run]
    by_cases hv : valid s op = true
    · rw [if_pos hv, if_pos hv, ih]
    · rw [if_neg hv, if_neg hv]
      rfl

lemma run_createOps (l : List (String × TerritoryType)) :
    ∀ s : State, run s (createOps l) = some
      { store := s.store ++ l.map (fun p => Node.new p.1 p.2),
        nodes := s.nodes ++ List.range' s.store.length l.length,
        handles := s.handles ++ List.range' s.store.length l.length } := by
  induction l with
  | nil =>
    intro s
    show some s = _
    congr 1
    apply stateExt <;> simp [List.range']
  | cons p rest ih =>
    intro s
    have h1 : run s (createOps (p :: rest)) =
        run ((add_node s (Node.new p.1 p.2)).1) (createOps rest) := rfl
    rw [h1, ih]
    have hlen : ((add_node s (Node.new p.1 p.2)).1).store.length =
        s.store.length + 1 := add_node_store_length s _
    congr 1
    apply stateExt
    · show (s.store ++ [Node.new p.1 p.2]) ++
        (rest.map fun q => Node.new q.1 q.2) = _
      rw [List.append_assoc]
      rfl
    · show (s.nodes ++ [s.store.length]) ++
        List.range' ((add_node s (Node.new p.1 p.2)).1).store.length rest.length = _
      rw [hlen, List.append_assoc]
      congr 1
    · show (s.handles ++ [s.store.length]) ++
        List.range' ((add_node s (Node.new p.1 p.2)).1).store.length rest.length = _
      rw [hlen, List.append_assoc]
      congr 1

lemma run_removeOps : ∀ (hs : List Nat) (s : State), hs.Nodup →
    (∀ h ∈ hs, h ∈ s.nodes) → (∀ h ∈ hs, h ∈ s.handles) → s.nodes.Nodup →
    ∃ t, run s (removeOps hs) = some t ∧
      t.nodes.length + hs.length = s.nodes.length := by
  intro hs
  induction hs with
  | nil =>
    intro s _ _ _ _
    exact ⟨s, rfl, by simp⟩
  | cons h rest ih =>
    intro s hnd hmem hhand hsnd
    have hv : valid s (Op.removeNode h) = true := by
      show s.handles.contains h = true
      simpa using hhand h (List.mem_cons_self h rest)
    have h2 : run s (removeOps (h :: rest)) =
        run (remove_node s h) (removeOps rest) := by
      show (if valid s (Op.removeNode h) = true then
        run (step s (Op.removeNode h)) (removeOps rest) else none) = _
      rw [if_pos hv]
      rfl
    obtain ⟨hne, hrnd⟩ := List.nodup_cons.mp hnd
    have hmem' : ∀ x ∈ rest, x ∈ (remove_node s h).nodes := by
      intro x hx
      rw [remove_node_nodes, List.mem_filter]
      refine ⟨hmem x (List.mem_cons_of_mem h hx), ?_⟩
      simp
      exact fun e => hne (e ▸ hx)
    have hhand' : ∀ x ∈ rest, x ∈ (remove_node s h).handles := fun x hx =>
      hhand x (List.mem_cons_of_mem h hx)
    have hnd' : (remove_node s h).nodes.Nodup := by
      rw [remove_node_nodes]
      exact hsnd.filter _
    obtain ⟨t, ht, hlen⟩ := ih (remove_node s h) hrnd hmem' hhand' hnd'
    refine ⟨t, by rw [h2]; exact ht, ?_⟩
    have e1 : s.nodes.erase h = s.nodes.filter (fun x => x != h) :=
      hsnd.erase_eq_filter h
    have e2 : (s.nodes.erase h).length = s.nodes.length - 1 :=
      List.length_erase_of_mem (hmem h (List.mem_cons_self h rest))
    have e3 : 0 < s.nodes.length :=
      List.length_pos_of_mem (hmem h (List.mem_cons_self h rest))
    have e4 : (remove_node s h).nodes.length = s.nodes.length - 1 := by
      rw [remove_node_nodes, ← e1]
      exact e2
    rw [List.length_cons]
    omega

/-- C7.  After n create_node calls and k remove_node calls on pairwise
distinct handles returned by those creations, the node count is
n - k. -/
theorem C7_theorem (specs : List (String × TerritoryType)) (hs : List Nat)
    (h1 : hs.Nodup) (h2 : ∀ h ∈ hs, h < specs.length) :
    ∃ t, run State.init (createOps specs ++ removeOps hs) = some t ∧
      t.nodes.length = specs.length - hs.length := by
  have hmid := run_createOps specs State.init
  have hmem : ∀ h ∈ hs, h ∈
      (State.init.nodes ++ List.range' State.init.store.length specs.length) := by
    intro h hh
    simp [State.init, List.mem_range'_1]
    exact h2 h hh
  have hnd : (State.init.nodes ++
      List.range' State.init.store.length specs.length).Nodup := by
    simp [State.init]
    exact List.nodup_range' _ _
  obtain ⟨t, ht, hlen⟩ := run_removeOps hs
    { store := State.init.store ++ specs.map (fun p => Node.new p.1 p.2),
      nodes := State.init.nodes ++ List.range' State.init.store.length specs.length,
      handles :=
        State.init.handles ++ List.range' State.init.store.length specs.length }
    h1 hmem hmem hnd
  refine ⟨t, ?_, ?_⟩
  · rw [run_append, hmid, Option.some_bind]
    exact ht
  · have : (State.init.nodes ++
        List.range' State.init.store.length specs.length).length = specs.length := by
      simp [State.init]
    rw [this] at hlen
    omega

/-- Witness for C7: three creations and one removal leave two nodes. -/
theorem C7_witness :
    ∃ t, run State.init (createOps
      [("a", TerritoryType.Sea), ("b", TerritoryType.Sea),
       ("c", TerritoryType.Sea)] ++ removeOps [1]) = some t ∧
      t.nodes.length = 2 :=
  C7_theorem
    [("a", TerritoryType.Sea), ("b", TerritoryType.Sea), ("c", TerritoryType.Sea)]
    [1] (by decide) (by decide)
